import Mathlib

/-!
Verification of the sudoku propagation solver (solver.go).

The grid is the global `var grid [9][9]int`, modelled as a total function
`Nat → Nat → Nat`; the program only ever reads or writes indices `0..8`.
The per-cell candidate lists (`var gridOptions [9][9][]int`) are modelled
the same way.  Go's randomized map iteration order (used when scanning the
tally dictionary in `reduceOptionsFromUniqueOccurenceGeneric`) is passed in
explicitly as a list of keys, and the solve loop receives a stream of such
orders, one per zone call per iteration.
-/

namespace Sudoksolv

abbrev Grid := Nat → Nat → Nat

abbrev Options := Nat → Nat → List Nat

/-- The zero value of `gridOptions`: every cell starts with no options. -/
def emptyOptions : Options := fun _ _ => []

/-- `isInRow` returns true if the given value is in the given row
(loop over the 9 columns of `grid[row]`). -/
def isInRow (g : Grid) (row val : Nat) : Bool :=
  (List.range 9).any fun col => g row col == val

/-- `isInCol` returns true if the given value is in the given column
(loop over the 9 rows). -/
def isInCol (g : Grid) (col val : Nat) : Bool :=
  (List.range 9).any fun row => g row col == val

/-- `getSquareFromRowCol`: square number (1..9) of a cell,
`(col/3) + 1 + (row/3)*3`. -/
def getSquareFromRowCol (row col : Nat) : Nat :=
  (col / 3) + 1 + (row / 3) * 3

/-- The nine cells scanned by `isInSquare` for a square number:
rows `((square-1)/3)*3 + {0,1,2}`, cols `((square-1)%3)*3 + {0,1,2}`,
row-major. -/
def squareCells (square : Nat) : List (Nat × Nat) :=
  (List.range 3).flatMap fun i =>
    (List.range 3).map fun j =>
      (((square - 1) / 3) * 3 + i, ((square - 1) % 3) * 3 + j)

/-- `isInSquare` returns true if the given value is already present in the
given square. -/
def isInSquare (g : Grid) (square val : Nat) : Bool :=
  (squareCells square).any fun p => g p.1 p.2 == val

/-- The 81 cells visited by the row-major double loops of the program. -/
def allCells : List (Nat × Nat) :=
  (List.range 9).flatMap fun r => (List.range 9).map fun c => (r, c)

/-- `countEmptyCells` returns the number of zeros in the grid. -/
def countEmptyCells (g : Grid) : Nat :=
  allCells.countP fun p => g p.1 p.2 == 0

/-- The options computed for one cell by `listOptionsPerEmptyCell`:
each value 1..9 in order, kept unless it is in the row, the column or the
square of the cell. -/
def cellOptions (g : Grid) (row col : Nat) : List Nat :=
  (List.range' 1 9).filter fun v =>
    !isInRow g row v && !isInCol g col v
      && !isInSquare g (getSquareFromRowCol row col) v

/-- `listOptionsPerEmptyCell`: for each empty cell of the grid, recompute its
option list; cells holding a nonzero value are skipped (`continue`), so their
stored option lists are left as they were. -/
def listOptionsPerEmptyCell (g : Grid) (opts : Options) : Options :=
  fun row col =>
    if row < 9 ∧ col < 9 ∧ g row col = 0 then cellOptions g row col
    else opts row col

/-- `fillSecuredOptions`: every cell whose option list has exactly one entry
gets that entry written into the grid, and its option list reset to `[]`. -/
def fillSecuredOptions (g : Grid) (opts : Options) : Grid × Options :=
  (fun row col =>
      if row < 9 ∧ col < 9 ∧ (opts row col).length = 1 then
        (opts row col).headD 0
      else g row col,
   fun row col =>
      if row < 9 ∧ col < 9 ∧ (opts row col).length = 1 then []
      else opts row col)

/-- The cells of the zone `rowMin..rowMax × colMin..colMax`, in the order the
two nested loops of `reduceOptionsFromUniqueOccurenceGeneric` visit them. -/
def zoneCells (rowMin rowMax colMin colMax : Nat) : List (Nat × Nat) :=
  (List.range' rowMin (rowMax + 1 - rowMin)).flatMap fun r =>
    (List.range' colMin (colMax + 1 - colMin)).map fun c => (r, c)

/-- The tally dictionary built by the first loop of
`reduceOptionsFromUniqueOccurenceGeneric`: `dict[option]` is incremented once
per occurrence of `option` in a cell of the zone. -/
def zoneTally (opts : Options) (rowMin rowMax colMin colMax v : Nat) : Nat :=
  ((zoneCells rowMin rowMax colMin colMax).map
    fun p => (opts p.1 p.2).count v).sum

/-- The `valueToFix` scan: iterate the dictionary keys in the given order,
remembering the last key whose tally is exactly 1.  `valueToFix` starts at
Go's zero value 0. -/
def pickValueToFix (t : Nat → Nat) (order : List Nat) : Nat :=
  order.foldl (fun acc v => if t v = 1 then v else acc) 0

/-- The second loop of `reduceOptionsFromUniqueOccurenceGeneric`: every zone
cell whose option list contains `valueToFix` has its list replaced by the
singleton `[valueToFix]`. -/
def applyValueToFix (opts : Options) (rowMin rowMax colMin colMax v : Nat) :
    Options :=
  fun r c =>
    if rowMin ≤ r ∧ r ≤ rowMax ∧ colMin ≤ c ∧ c ≤ colMax ∧ v ∈ opts r c then
      [v]
    else opts r c

/-- One call of `reduceOptionsFromUniqueOccurenceGeneric` on a zone, with the
map iteration order passed explicitly. -/
def reduceOptionsFromUniqueOccurenceGeneric
    (opts : Options) (rowMin rowMax colMin colMax : Nat)
    (order : List Nat) : Options :=
  applyValueToFix opts rowMin rowMax colMin colMax
    (pickValueToFix (zoneTally opts rowMin rowMax colMin colMax) order)

structure Zone where
  rm : Nat
  rM : Nat
  cm : Nat
  cM : Nat
deriving DecidableEq, Repr

/-- The zone of square number `s` (1..9), offsets as in
`reduceOptionsFromUniqueOccurence`. -/
def squareZone (s : Nat) : Zone :=
  ⟨((s - 1) / 3) * 3, ((s - 1) / 3) * 3 + 2,
   ((s - 1) % 3) * 3, ((s - 1) % 3) * 3 + 2⟩

/-- The 27 zones in the order `reduceOptionsFromUniqueOccurence` visits them:
squares 1..9, then rows 0..8, then columns 0..8. -/
def zonesList : List Zone :=
  ((List.range' 1 9).map squareZone)
    ++ ((List.range 9).map fun r => ⟨r, r, 0, 8⟩)
    ++ ((List.range 9).map fun c => ⟨0, 8, c, c⟩)

/-- `reduceOptionsFromUniqueOccurence`: apply the generic reduction to the 27
zones in order, the i-th call using iteration order `ords i`. -/
def reduceOptionsFromUniqueOccurence
    (opts : Options) (ords : Nat → List Nat) : Options :=
  (zonesList.enum).foldl
    (fun o iz =>
      reduceOptionsFromUniqueOccurenceGeneric o iz.2.rm iz.2.rM iz.2.cm iz.2.cM
        (ords iz.1))
    opts

/-- Final state of the solve loop of `main`: grid, option lists, value of
`remains` at exit, number of loop iterations run, and whether the loop exited
through the stall `break` (as opposed to `remains` reaching 0). -/
structure LoopResult where
  grid : Grid
  opts : Options
  remains : Nat
  iters : Nat
  stalled : Bool

/-- One iteration body of the solve loop, up to the commit:
`reduceOptionsFromUniqueOccurence()` then `fillSecuredOptions()`. -/
def onePass (ords : Nat → List Nat) (g : Grid) (opts : Options) :
    Grid × Options :=
  fillSecuredOptions g (reduceOptionsFromUniqueOccurence opts ords)

/-- The solve loop of `main`, with explicit fuel (the loop itself has no
bound; fuel sufficiency is proved separately).  `oss k i` is the map
iteration order of the i-th zone call of iteration `k`.  Each iteration runs
`reduceOptionsFromUniqueOccurence()`, `fillSecuredOptions()`,
`listOptionsPerEmptyCell()`, then breaks when `countEmptyCells()` still
equals `remains`, else updates `remains` and repeats while it is positive. -/
def solveIter (oss : Nat → Nat → List Nat) :
    Nat → Nat → Grid → Options → Nat → LoopResult
  | 0, remains, g, opts, k => ⟨g, opts, remains, k, true⟩
  | fuel + 1, remains, g, opts, k =>
    if 0 < remains then
      if countEmptyCells (onePass (oss k) g opts).1 = remains then
        ⟨(onePass (oss k) g opts).1,
         listOptionsPerEmptyCell (onePass (oss k) g opts).1
           (onePass (oss k) g opts).2,
         remains, k + 1, true⟩
      else
        solveIter oss fuel (countEmptyCells (onePass (oss k) g opts).1)
          (onePass (oss k) g opts).1
          (listOptionsPerEmptyCell (onePass (oss k) g opts).1
            (onePass (oss k) g opts).2)
          (k + 1)
    else ⟨g, opts, remains, k, false⟩

/-- `main` after grid initialization: `remains := countEmptyCells()`, one
initial `listOptionsPerEmptyCell()`, then the loop.  Fuel 82 is enough
(proved below). -/
def runSolver (g : Grid) (oss : Nat → Nat → List Nat) : LoopResult :=
  solveIter oss 82 (countEmptyCells g) g
    (listOptionsPerEmptyCell g emptyOptions) 0

/-- Numeric value of a digit character, as `strconv.Atoi` computes it for a
one-character string. -/
def charVal (ch : Char) : Nat := ch.toNat - 48

/-- The grid filled row-major from an 81-character digit string. -/
def gridOfStr (s : List Char) : Grid :=
  fun r c => if r < 9 ∧ c < 9 then charVal (s.getD (9 * r + c) '0') else 0

def isDigitCh (ch : Char) : Bool :=
  decide ('0' ≤ ch) && decide (ch ≤ '9')

/-- Semantics of `regexp.MustCompile("[0-9]{81}").MatchString(str)`: the
string contains, at some position, a run of 81 digit characters. -/
def hasDigitRun81 (s : List Char) : Bool :=
  (List.range (s.length + 1)).any fun i =>
    decide (i + 81 ≤ s.length) && ((s.drop i).take 81).all isDigitCh

/-- `strToGrid`: reject (with `log.Fatal`) when the length is not 81, then
when the regex `[0-9]{81}` does not match; otherwise fill the grid row-major
from the characters. -/
def strToGrid (s : List Char) : Option Grid :=
  if s.length ≠ 81 then none
  else if ¬ hasDigitRun81 s = true then none
  else some (gridOfStr s)

/-- All option values stored for in-range cells are digits 1..9.  This holds
in every state the program reaches after the first
`listOptionsPerEmptyCell`. -/
abbrev OptsBound (opts : Options) : Prop :=
  ∀ r, r < 9 → ∀ c, c < 9 → ∀ w ∈ opts r c, 1 ≤ w ∧ w ≤ 9

/-- The spec's consistency invariant: an in-range cell with a non-empty
option list holds grid value 0. -/
abbrev Consistent (g : Grid) (opts : Options) : Prop :=
  ∀ r, r < 9 → ∀ c, c < 9 → opts r c ≠ [] → g r c = 0

/-! ### Order-validity checker

Go iterates a map in an unspecified, randomized order, but always visits
exactly the current keys, once each.  `runOk` re-traces the solve loop and
checks that every supplied iteration order is a permutation of the keys of
the tally dictionary built at that call. -/

/-- The keys of the tally dictionary of a zone: every option value occurring
in a cell of the zone, once each. -/
def zoneKeysList (opts : Options) (z : Zone) : List Nat :=
  ((zoneCells z.rm z.rM z.cm z.cM).flatMap fun p => opts p.1 p.2).dedup

/-- `order` is a permutation of `keys` (for `keys` without duplicates). -/
def orderOk (order keys : List Nat) : Bool :=
  decide order.Nodup && order.all (fun v => keys.contains v)
    && keys.all (fun v => order.contains v)

/-- One `reduceOptionsFromUniqueOccurence` pass, also checking each of the
27 iteration orders against the tally keys of the state of that call. -/
def reducePassCheck (opts : Options) (ords : Nat → List Nat) :
    Options × Bool :=
  (zonesList.enum).foldl
    (fun acc iz =>
      (reduceOptionsFromUniqueOccurenceGeneric acc.1 iz.2.rm iz.2.rM iz.2.cm
         iz.2.cM (ords iz.1),
       acc.2 && orderOk (ords iz.1) (zoneKeysList acc.1 iz.2)))
    (opts, true)

/-- The solve loop re-traced, conjoining the order checks of every pass. -/
def solveIterCheck (oss : Nat → Nat → List Nat) :
    Nat → Nat → Grid → Options → Nat → Bool → Bool
  | 0, _, _, _, _, ok => ok
  | fuel + 1, remains, g, opts, k, ok =>
    if 0 < remains then
      if countEmptyCells (onePass (oss k) g opts).1 = remains then
        ok && (reducePassCheck opts (oss k)).2
      else
        solveIterCheck oss fuel (countEmptyCells (onePass (oss k) g opts).1)
          (onePass (oss k) g opts).1
          (listOptionsPerEmptyCell (onePass (oss k) g opts).1
            (onePass (oss k) g opts).2)
          (k + 1) (ok && (reducePassCheck opts (oss k)).2)
    else ok

/-- All iteration orders used along `runSolver g oss` are permutations of
the tally keys of their respective calls. -/
def runOk (g : Grid) (oss : Nat → Nat → List Nat) : Bool :=
  solveIterCheck oss 82 (countEmptyCells g) g
    (listOptionsPerEmptyCell g emptyOptions) 0 true

/-! ### Concrete sample inputs -/

/-- The all-zeros grid. -/
def gZero : Grid := fun _ _ => 0

/-- A grid with every cell filled. -/
def gOne : Grid := fun _ _ => 1

/-- The everywhere-empty order oracle. -/
def ossNil : Nat → Nat → List Nat := fun _ _ => []

/-- Stale options: cell (0,0) still lists option 3. -/
def optsStale : Options := fun r c => if r = 0 ∧ c = 0 then [3] else []

/-- A candidate state on row 0 used to exercise the unique-occurrence
reduction: cell (0,0) holds options 1,2,3 and cell (0,1) holds 2,3, so in
row 0 the value 1 has tally 1 and the values 2 and 3 have tally 2. -/
def optsZoneEx : Options := fun r c =>
  if r = 0 ∧ c = 0 then [1, 2, 3]
  else if r = 0 ∧ c = 1 then [2, 3] else []

/-- An 81-digit input string (7 empty cells) on which the terminal state of
the solve loop depends on the map iteration orders. -/
def cexStr : List Char :=
  ("221128605233303609222434010468519752294643765157162142909622698965315459189315403").toList

/-- Lookup in a table of per-iteration, per-zone orders; entries that are
absent give the empty order. -/
def ossOfTable (t : List (List (List Nat))) : Nat → Nat → List Nat :=
  fun k i => (t.getD k []).getD i []

/-- Iteration orders for a run on `gridOfStr cexStr` where every tally
dictionary is read in ascending key order. -/
def ossAscTable : List (List (List Nat)) :=
  [[[], [5, 7], [3, 7, 8], [], [], [], [4, 7], [], [2, 7], [3], [7, 8],
    [7, 8], [], [], [], [7], [], [7], [], [7], [], [], [7], [], [8],
    [3, 7, 8], [7]]]

/-- Iteration orders for a run on `gridOfStr cexStr` where every tally
dictionary is read in descending key order. -/
def ossDescTable : List (List (List Nat)) :=
  [[[], [7, 5], [8, 7, 3], [], [], [], [7, 4], [], [7, 2], [3], [8, 7, 5],
    [8, 7], [], [], [], [4], [], [2], [], [4], [], [], [5], [], [8],
    [8, 7, 3, 2], [7]]]

def ossAsc : Nat → Nat → List Nat := ossOfTable ossAscTable

def ossDesc : Nat → Nat → List Nat := ossOfTable ossDescTable

/-! ### Basic characterizations -/

theorem mem_allCells {p : Nat × Nat} : p ∈ allCells ↔ p.1 < 9 ∧ p.2 < 9 := by
  cases p with
  | mk r c =>
    simp only [allCells, List.mem_flatMap, List.mem_map, List.mem_range]
    constructor
    · rintro ⟨a, ha, b, hb, h⟩
      cases h
      exact ⟨ha, hb⟩
    · rintro ⟨hr, hc⟩
      exact ⟨r, hr, c, hc, rfl⟩

theorem mem_zoneCells {rm rM cm cM : Nat} {p : Nat × Nat} :
    p ∈ zoneCells rm rM cm cM ↔
      rm ≤ p.1 ∧ p.1 ≤ rM ∧ cm ≤ p.2 ∧ p.2 ≤ cM := by
  cases p with
  | mk r c =>
    simp only [zoneCells, List.mem_flatMap, List.mem_map, List.mem_range'_1]
    constructor
    · rintro ⟨a, ha, b, hb, h⟩
      cases h
      refine ⟨ha.1, ?_, hb.1, ?_⟩ <;> omega
    · rintro ⟨h1, h2, h3, h4⟩
      exact ⟨r, by omega, c, by omega, rfl⟩

theorem isInRow_iff {g : Grid} {row val : Nat} :
    isInRow g row val = true ↔ ∃ col, col < 9 ∧ g row col = val := by
  simp only [isInRow, List.any_eq_true, List.mem_range, beq_iff_eq]

theorem isInCol_iff {g : Grid} {col val : Nat} :
    isInCol g col val = true ↔ ∃ row, row < 9 ∧ g row col = val := by
  simp only [isInCol, List.any_eq_true, List.mem_range, beq_iff_eq]

theorem mem_squareCells {s : Nat} {p : Nat × Nat} :
    p ∈ squareCells s ↔
      ∃ i, i < 3 ∧ ∃ j, j < 3 ∧
        p = (((s - 1) / 3) * 3 + i, ((s - 1) % 3) * 3 + j) := by
  simp only [squareCells, List.mem_flatMap, List.mem_map, List.mem_range]
  constructor
  · rintro ⟨i, hi, j, hj, h⟩
    exact ⟨i, hi, j, hj, h.symm⟩
  · rintro ⟨i, hi, j, hj, h⟩
    exact ⟨i, hi, j, hj, h.symm⟩

theorem getSquare_sub_one_div {r c : Nat} (hr : r < 9) (hc : c < 9) :
    (getSquareFromRowCol r c - 1) / 3 = r / 3 := by
  simp only [getSquareFromRowCol]
  omega

theorem getSquare_sub_one_mod {r c : Nat} (hr : r < 9) (hc : c < 9) :
    (getSquareFromRowCol r c - 1) % 3 = c / 3 := by
  simp only [getSquareFromRowCol]
  omega

/-- The cells scanned for square number `getSquareFromRowCol r c` are exactly
the 3×3 block containing `(r, c)`. -/
theorem mem_squareCells_getSquare {r c : Nat} (hr : r < 9) (hc : c < 9)
    {p : Nat × Nat} :
    p ∈ squareCells (getSquareFromRowCol r c) ↔
      p.1 < 9 ∧ p.2 < 9 ∧ p.1 / 3 = r / 3 ∧ p.2 / 3 = c / 3 := by
  rw [mem_squareCells]
  simp only [getSquare_sub_one_div hr hc, getSquare_sub_one_mod hr hc]
  cases p with
  | mk a b =>
    constructor
    · rintro ⟨i, hi, j, hj, h⟩
      cases h
      refine ⟨by omega, by omega, by omega, by omega⟩
    · rintro ⟨h1, h2, h3, h4⟩
      refine ⟨a - (r / 3) * 3, by omega, b - (c / 3) * 3, by omega, ?_⟩
      simp only [Prod.mk.injEq]
      omega

theorem isInSquare_getSquare_iff {g : Grid} {r c v : Nat}
    (hr : r < 9) (hc : c < 9) :
    isInSquare g (getSquareFromRowCol r c) v = true ↔
      ∃ a b, a < 9 ∧ b < 9 ∧ a / 3 = r / 3 ∧ b / 3 = c / 3 ∧ g a b = v := by
  simp only [isInSquare, List.any_eq_true, beq_iff_eq]
  constructor
  · rintro ⟨p, hp, hv⟩
    rw [mem_squareCells_getSquare hr hc] at hp
    exact ⟨p.1, p.2, hp.1, hp.2.1, hp.2.2.1, hp.2.2.2, hv⟩
  · rintro ⟨a, b, h1, h2, h3, h4, h5⟩
    refine ⟨(a, b), ?_, h5⟩
    rw [mem_squareCells_getSquare hr hc]
    exact ⟨h1, h2, h3, h4⟩

/-! ### Option lists computed for an empty cell -/

theorem mem_cellOptions {g : Grid} {r c v : Nat} (hr : r < 9) (hc : c < 9) :
    v ∈ cellOptions g r c ↔
      1 ≤ v ∧ v ≤ 9
        ∧ (∀ b, b < 9 → g r b ≠ v)
        ∧ (∀ a, a < 9 → g a c ≠ v)
        ∧ (∀ a b, a < 9 → b < 9 → a / 3 = r / 3 → b / 3 = c / 3 →
            g a b ≠ v) := by
  simp only [cellOptions, List.mem_filter, List.mem_range'_1,
    Bool.and_eq_true, Bool.not_eq_true']
  rw [← Bool.not_eq_true (isInRow g r v), ← Bool.not_eq_true (isInCol g c v),
    ← Bool.not_eq_true (isInSquare g (getSquareFromRowCol r c) v)]
  rw [isInRow_iff, isInCol_iff, isInSquare_getSquare_iff hr hc]
  constructor
  · rintro ⟨⟨h1, h2⟩, ⟨hrow, hcol⟩, hsq⟩
    refine ⟨h1, by omega, ?_, ?_, ?_⟩
    · intro b hb hv; exact hrow ⟨b, hb, hv⟩
    · intro a ha hv; exact hcol ⟨a, ha, hv⟩
    · intro a b ha hb h3 h4 hv; exact hsq ⟨a, b, ha, hb, h3, h4, hv⟩
  · rintro ⟨h1, h2, hrow, hcol, hsq⟩
    refine ⟨⟨h1, by omega⟩, ⟨?_, ?_⟩, ?_⟩
    · rintro ⟨b, hb, hv⟩; exact hrow b hb hv
    · rintro ⟨a, ha, hv⟩; exact hcol a ha hv
    · rintro ⟨a, b, ha, hb, h3, h4, hv⟩; exact hsq a b ha hb h3 h4 hv

theorem cellOptions_sorted (g : Grid) (r c : Nat) :
    (cellOptions g r c).Pairwise (· < ·) := by
  have h : (List.range' 1 9).Pairwise (fun a b : Nat => a < b) := by decide
  exact h.sublist (List.filter_sublist _)

theorem cellOptions_bound {g : Grid} {r c v : Nat}
    (h : v ∈ cellOptions g r c) : 1 ≤ v ∧ v ≤ 9 := by
  have := (List.mem_filter.mp h).1
  rw [List.mem_range'_1] at this
  omega

/-! ### Pointwise preservation helpers -/

theorem foldl_preserve {α β : Type} (P : β → Prop) (f : β → α → β)
    (h : ∀ b a, P b → P (f b a)) :
    ∀ (l : List α) (b : β), P b → P (l.foldl f b) := by
  intro l
  induction l with
  | nil => intro b hb; exact hb
  | cons a l ih => intro b hb; exact ih (f b a) (h b a hb)

theorem mem_reduceGeneric {opts : Options} {rm rM cm cM : Nat}
    {order : List Nat} {r c w : Nat}
    (h : w ∈ reduceOptionsFromUniqueOccurenceGeneric opts rm rM cm cM order
          r c) :
    w ∈ opts r c := by
  simp only [reduceOptionsFromUniqueOccurenceGeneric, applyValueToFix] at h
  by_cases hc : rm ≤ r ∧ r ≤ rM ∧ cm ≤ c ∧ c ≤ cM ∧
      pickValueToFix (zoneTally opts rm rM cm cM) order ∈ opts r c
  · rw [if_pos hc] at h
    rcases List.mem_singleton.mp h with rfl
    exact hc.2.2.2.2
  · rwa [if_neg hc] at h

theorem ne_nil_reduceGeneric {opts : Options} {rm rM cm cM : Nat}
    {order : List Nat} {r c : Nat}
    (h : reduceOptionsFromUniqueOccurenceGeneric opts rm rM cm cM order r c
          ≠ []) :
    opts r c ≠ [] := by
  intro hnil
  apply h
  simp only [reduceOptionsFromUniqueOccurenceGeneric, applyValueToFix, hnil]
  simp

theorem optsBound_reduceGeneric {opts : Options} {rm rM cm cM : Nat}
    {order : List Nat} (h : OptsBound opts) :
    OptsBound (reduceOptionsFromUniqueOccurenceGeneric opts rm rM cm cM
      order) := by
  intro r hr c hc w hw
  exact h r hr c hc w (mem_reduceGeneric hw)

theorem optsBound_reducePass {opts : Options} {ords : Nat → List Nat}
    (h : OptsBound opts) :
    OptsBound (reduceOptionsFromUniqueOccurence opts ords) := by
  refine foldl_preserve OptsBound _ ?_ _ _ h
  intro o iz hb
  exact optsBound_reduceGeneric hb

theorem consistent_reduceGeneric {g : Grid} {opts : Options}
    {rm rM cm cM : Nat} {order : List Nat} (h : Consistent g opts) :
    Consistent g (reduceOptionsFromUniqueOccurenceGeneric opts rm rM cm cM
      order) := by
  intro r hr c hc hne
  exact h r hr c hc (ne_nil_reduceGeneric hne)

theorem consistent_reducePass {g : Grid} {opts : Options}
    {ords : Nat → List Nat} (h : Consistent g opts) :
    Consistent g (reduceOptionsFromUniqueOccurence opts ords) := by
  refine foldl_preserve (Consistent g) _ ?_ _ _ h
  intro o iz hb
  exact consistent_reduceGeneric hb

theorem optsBound_listOptions {g : Grid} {opts : Options}
    (h : OptsBound opts) :
    OptsBound (listOptionsPerEmptyCell g opts) := by
  intro r hr c hc w hw
  simp only [listOptionsPerEmptyCell] at hw
  by_cases hcell : r < 9 ∧ c < 9 ∧ g r c = 0
  · rw [if_pos hcell] at hw
    exact cellOptions_bound hw
  · rw [if_neg hcell] at hw
    exact h r hr c hc w hw

theorem consistent_listOptions {g : Grid} {opts : Options}
    (h : Consistent g opts) :
    Consistent g (listOptionsPerEmptyCell g opts) := by
  intro r hr c hc hne
  simp only [listOptionsPerEmptyCell] at hne
  by_cases hcell : r < 9 ∧ c < 9 ∧ g r c = 0
  · exact hcell.2.2
  · rw [if_neg hcell] at hne
    exact h r hr c hc hne

theorem optsBound_fill {g : Grid} {opts : Options} (h : OptsBound opts) :
    OptsBound (fillSecuredOptions g opts).2 := by
  intro r hr c hc w hw
  simp only [fillSecuredOptions] at hw
  by_cases hcell : r < 9 ∧ c < 9 ∧ (opts r c).length = 1
  · rw [if_pos hcell] at hw
    cases hw
  · rw [if_neg hcell] at hw
    exact h r hr c hc w hw

theorem consistent_fill {g : Grid} {opts : Options} (h : Consistent g opts) :
    Consistent (fillSecuredOptions g opts).1 (fillSecuredOptions g opts).2 := by
  intro r hr c hc hne
  simp only [fillSecuredOptions] at hne ⊢
  by_cases hcell : r < 9 ∧ c < 9 ∧ (opts r c).length = 1
  · rw [if_pos hcell] at hne
    exact absurd rfl hne
  · rw [if_neg hcell] at hne
    rw [if_neg hcell]
    exact h r hr c hc hne

/-- Cells emptied by `fillSecuredOptions` were empty before, as long as the
stored options are digits 1..9 (so the written value is nonzero). -/
theorem fill_zero_of_zero {g : Grid} {opts : Options} (h : OptsBound opts)
    {r c : Nat} (hr : r < 9) (hc : c < 9)
    (hz : (fillSecuredOptions g opts).1 r c = 0) : g r c = 0 := by
  simp only [fillSecuredOptions] at hz
  by_cases hcell : r < 9 ∧ c < 9 ∧ (opts r c).length = 1
  · rw [if_pos hcell] at hz
    exfalso
    rcases hl : opts r c with _ | ⟨w, l⟩
    · rw [hl] at hcell; simp at hcell
    · have hw : w ∈ opts r c := by rw [hl]; exact List.mem_cons_self _ _
      have := (h r hr c hc w hw).1
      rw [hl] at hz
      simp only [List.headD_cons] at hz
      omega
  · rwa [if_neg hcell] at hz

theorem countEmpty_mono {g1 g2 : Grid}
    (h : ∀ r c, r < 9 → c < 9 → g2 r c = 0 → g1 r c = 0) :
    countEmptyCells g2 ≤ countEmptyCells g1 := by
  apply List.countP_mono_left
  intro p hp hz
  have hb := mem_allCells.mp hp
  have := h p.1 p.2 hb.1 hb.2 (by simpa using hz)
  simpa using this

theorem countEmpty_fill_le {g : Grid} {opts : Options}
    (h : OptsBound opts) :
    countEmptyCells (fillSecuredOptions g opts).1 ≤ countEmptyCells g :=
  countEmpty_mono fun _ _ hr hc hz => fill_zero_of_zero h hr hc hz

theorem countEmpty_le_81 (g : Grid) : countEmptyCells g ≤ 81 := by
  have := List.countP_le_length (fun p : Nat × Nat => g p.1 p.2 == 0)
    (l := allCells)
  simpa [allCells] using this

/-! ### The valueToFix scan and the zone tally -/

/-- The `valueToFix` scan keeps the last element of the iteration order whose
tally is exactly 1 (or the initial accumulator when there is none). -/
theorem foldl_pick (t : Nat → Nat) :
    ∀ (l : List Nat) (a : Nat),
      l.foldl (fun acc v => if t v = 1 then v else acc) a
        = (l.filter fun v => decide (t v = 1)).getLastD a := by
  intro l
  induction l with
  | nil => intro a; rfl
  | cons v l ih =>
    intro a
    by_cases hv : t v = 1
    · rw [List.foldl_cons, if_pos hv, ih, List.filter_cons,
        if_pos (by simpa using hv), List.getLastD_cons]
    · rw [List.foldl_cons, if_neg hv, ih, List.filter_cons,
        if_neg (by simpa using hv)]

theorem getLastD_const {v : Nat} :
    ∀ (l : List Nat), l ≠ [] → (∀ x ∈ l, x = v) →
      ∀ d, l.getLastD d = v := by
  intro l
  induction l with
  | nil => intro h; exact absurd rfl h
  | cons a l ih =>
    intro _ hall d
    rw [List.getLastD_cons]
    rcases hl : l with _ | ⟨b, l2⟩
    · exact hall a (List.mem_cons_self a l)
    · rw [← hl]
      refine ih (by rw [hl]; simp) (fun x hx => hall x (List.mem_cons_of_mem a hx)) a

/-- If a value has tally exactly 1 in a zone and a zone cell lists it, then
no other zone cell lists it. -/
theorem zoneTally_one_unique {opts : Options} {rm rM cm cM v r c : Nat}
    (ht : zoneTally opts rm rM cm cM v = 1)
    (hin : (r, c) ∈ zoneCells rm rM cm cM) (hv : v ∈ opts r c) :
    ∀ p ∈ zoneCells rm rM cm cM, p ≠ (r, c) → v ∉ opts p.1 p.2 := by
  obtain ⟨l1, l2, hsplit⟩ := List.append_of_mem hin
  intro p hp hne hmem
  have hsum : zoneTally opts rm rM cm cM v
      = (l1.map fun q => (opts q.1 q.2).count v).sum
        + ((opts r c).count v
           + (l2.map fun q => (opts q.1 q.2).count v).sum) := by
    rw [zoneTally, hsplit]
    simp [List.sum_append]
  have hcpos : 0 < (opts r c).count v := List.count_pos_iff.mpr hv
  have hppos : 0 < (opts p.1 p.2).count v := List.count_pos_iff.mpr hmem
  have hp2 : p ∈ l1 ∨ p ∈ l2 := by
    rw [hsplit] at hp
    rcases List.mem_append.mp hp with h | h
    · exact Or.inl h
    · rcases List.mem_cons.mp h with h | h
      · exact absurd h hne
      · exact Or.inr h
  rcases hp2 with h | h
  · have hle : (opts p.1 p.2).count v
        ≤ (l1.map fun q => (opts q.1 q.2).count v).sum :=
      List.single_le_sum (fun x _ => Nat.zero_le x) _
        (List.mem_map_of_mem _ h)
    omega
  · have hle : (opts p.1 p.2).count v
        ≤ (l2.map fun q => (opts q.1 q.2).count v).sum :=
      List.single_le_sum (fun x _ => Nat.zero_le x) _
        (List.mem_map_of_mem _ h)
    omega

/-- A value with a nonzero zone tally occurs in some zone cell; under the
row/column bound on the stored options it is therefore at most 9. -/
theorem zoneTally_pos_le_nine {opts : Options} {rm rM cm cM w : Nat}
    (hb : ∀ r, r ≤ rM → ∀ c, c ≤ cM → ∀ u ∈ opts r c, u ≤ 9)
    (ht : zoneTally opts rm rM cm cM w ≠ 0) : w ≤ 9 := by
  have hex : ∃ x ∈ (zoneCells rm rM cm cM).map
      (fun p => (opts p.1 p.2).count w), x ≠ 0 := by
    by_contra hall
    push_neg at hall
    exact ht (List.sum_eq_zero_iff.mpr hall)
  obtain ⟨x, hx, hxne⟩ := hex
  obtain ⟨p, hp, rfl⟩ := List.mem_map.mp hx
  have hmem : w ∈ opts p.1 p.2 := by
    by_contra h
    exact hxne (List.count_eq_zero.mpr h)
  have hbz := mem_zoneCells.mp hp
  exact hb p.1 hbz.2.1 p.2 hbz.2.2.2 w hmem

/-! ### The solve loop -/

theorem onePass_optsBound {ords : Nat → List Nat} {g : Grid} {opts : Options}
    (h : OptsBound opts) : OptsBound (onePass ords g opts).2 :=
  optsBound_fill (optsBound_reducePass h)

theorem onePass_consistent {ords : Nat → List Nat} {g : Grid}
    {opts : Options} (h : Consistent g opts) :
    Consistent (onePass ords g opts).1 (onePass ords g opts).2 :=
  consistent_fill (consistent_reducePass h)

theorem onePass_countEmpty_le {ords : Nat → List Nat} {g : Grid}
    {opts : Options} (h : OptsBound opts) :
    countEmptyCells (onePass ords g opts).1 ≤ countEmptyCells g :=
  countEmpty_fill_le (optsBound_reducePass h)

/-- Main invariant of the solve loop: provided `remains` agrees with the
current empty-cell count and the options are in range, the loop (i) runs at
most `remains` more iterations, (ii) returns `remains` equal to the final
empty count, (iii) exits non-stalled exactly when the grid got full,
(iv, v) keeps the option bound and the consistency invariant, and (vi) its
result does not depend on the fuel as long as fuel exceeds `remains`. -/
theorem solveIter_spec (oss : Nat → Nat → List Nat) :
    ∀ (fuel remains : Nat) (g : Grid) (opts : Options) (k : Nat),
      remains = countEmptyCells g → OptsBound opts → Consistent g opts →
      remains < fuel →
      (solveIter oss fuel remains g opts k).iters ≤ k + remains ∧
      (solveIter oss fuel remains g opts k).remains
        = countEmptyCells (solveIter oss fuel remains g opts k).grid ∧
      ((solveIter oss fuel remains g opts k).stalled = false ↔
        (solveIter oss fuel remains g opts k).remains = 0) ∧
      OptsBound (solveIter oss fuel remains g opts k).opts ∧
      Consistent (solveIter oss fuel remains g opts k).grid
        (solveIter oss fuel remains g opts k).opts ∧
      (∀ fuel2, remains < fuel2 →
        solveIter oss fuel2 remains g opts k
          = solveIter oss fuel remains g opts k) := by
  intro fuel
  induction fuel with
  | zero => intro remains g opts k _ _ _ hlt; omega
  | succ fuel ih =>
    intro remains g opts k hrem hOpts hCons hlt
    by_cases h0 : 0 < remains
    · have hb3 : OptsBound
          (listOptionsPerEmptyCell (onePass (oss k) g opts).1
            (onePass (oss k) g opts).2) :=
        optsBound_listOptions (onePass_optsBound hOpts)
      have hc3 : Consistent (onePass (oss k) g opts).1
          (listOptionsPerEmptyCell (onePass (oss k) g opts).1
            (onePass (oss k) g opts).2) :=
        consistent_listOptions (onePass_consistent hCons)
      have hle : countEmptyCells (onePass (oss k) g opts).1 ≤ remains := by
        rw [hrem]; exact onePass_countEmpty_le hOpts
      by_cases heq : countEmptyCells (onePass (oss k) g opts).1 = remains
      · have hres : solveIter oss (fuel + 1) remains g opts k
            = ⟨(onePass (oss k) g opts).1,
               listOptionsPerEmptyCell (onePass (oss k) g opts).1
                 (onePass (oss k) g opts).2,
               remains, k + 1, true⟩ := by
          simp only [solveIter, if_pos h0, if_pos heq]
        rw [hres]
        refine ⟨by simp; omega, by simpa using heq.symm, ?_, hb3, hc3, ?_⟩
        · simp only []
          constructor
          · intro h; cases h
          · intro h; omega
        · intro fuel2 hlt2
          rcases fuel2 with _ | fuel2
          · omega
          · simp only [solveIter, if_pos h0, if_pos heq]
      · have hres : solveIter oss (fuel + 1) remains g opts k
            = solveIter oss fuel (countEmptyCells (onePass (oss k) g opts).1)
                (onePass (oss k) g opts).1
                (listOptionsPerEmptyCell (onePass (oss k) g opts).1
                  (onePass (oss k) g opts).2)
                (k + 1) := by
          simp only [solveIter, if_pos h0, if_neg heq]
        have hltrem : countEmptyCells (onePass (oss k) g opts).1 < remains :=
          lt_of_le_of_ne hle heq
        have hfuel : countEmptyCells (onePass (oss k) g opts).1 < fuel := by
          omega
        obtain ⟨ih1, ih2, ih3, ih4, ih5, ih6⟩ :=
          ih (countEmptyCells (onePass (oss k) g opts).1)
            (onePass (oss k) g opts).1
            (listOptionsPerEmptyCell (onePass (oss k) g opts).1
              (onePass (oss k) g opts).2)
            (k + 1) rfl hb3 hc3 hfuel
        rw [hres]
        refine ⟨by omega, ih2, ih3, ih4, ih5, ?_⟩
        intro fuel2 hlt2
        rcases fuel2 with _ | fuel2
        · omega
        · have : solveIter oss (fuel2 + 1) remains g opts k
              = solveIter oss fuel2
                  (countEmptyCells (onePass (oss k) g opts).1)
                  (onePass (oss k) g opts).1
                  (listOptionsPerEmptyCell (onePass (oss k) g opts).1
                    (onePass (oss k) g opts).2)
                  (k + 1) := by
            simp only [solveIter, if_pos h0, if_neg heq]
          rw [this, ih6 fuel2 (by omega)]
    · have hres : solveIter oss (fuel + 1) remains g opts k
          = ⟨g, opts, remains, k, false⟩ := by
        simp only [solveIter, if_neg h0]
      rw [hres]
      refine ⟨Nat.le_add_right k remains, hrem, ?_, hOpts, hCons, ?_⟩
      · constructor
        · intro _; show remains = 0; omega
        · intro _; rfl
      · intro fuel2 hlt2
        rcases fuel2 with _ | fuel2
        · omega
        · simp only [solveIter, if_neg h0]

/-! ### Claim theorems -/

/-- C1: after one run of the candidate calculator, every cell `(r, c)` with
grid value 0 has as candidate set exactly the values `v` in 1..9 that appear
nowhere in row `r`, nowhere in column `c` and nowhere in the 3×3 box of
`(r, c)`, listed in strictly ascending order, hence all distinct. -/
theorem listOptions_empty_cell_exact (g : Grid) (opts : Options)
    (r c : Nat) (hr : r < 9) (hc : c < 9) (h0 : g r c = 0) :
    (∀ v, v ∈ listOptionsPerEmptyCell g opts r c ↔
      (1 ≤ v ∧ v ≤ 9
        ∧ (∀ b, b < 9 → g r b ≠ v)
        ∧ (∀ a, a < 9 → g a c ≠ v)
        ∧ (∀ a b, a < 9 → b < 9 → a / 3 = r / 3 → b / 3 = c / 3 →
            g a b ≠ v))) ∧
    (listOptionsPerEmptyCell g opts r c).Pairwise (· < ·) ∧
    (listOptionsPerEmptyCell g opts r c).Nodup := by
  have hcell : listOptionsPerEmptyCell g opts r c = cellOptions g r c := by
    simp only [listOptionsPerEmptyCell,
      if_pos (show r < 9 ∧ c < 9 ∧ g r c = 0 from ⟨hr, hc, h0⟩)]
  rw [hcell]
  refine ⟨fun v => mem_cellOptions hr hc, cellOptions_sorted g r c, ?_⟩
  exact (cellOptions_sorted g r c).imp fun h => Nat.ne_of_lt h

theorem listOptions_empty_cell_exact_witness :
    (1 : Nat) < 9 ∧ (4 : Nat) < 9 ∧ gridOfStr cexStr 1 4 = 0 ∧
    ((∀ v, v ∈ listOptionsPerEmptyCell (gridOfStr cexStr) emptyOptions 1 4 ↔
      (1 ≤ v ∧ v ≤ 9
        ∧ (∀ b, b < 9 → gridOfStr cexStr 1 b ≠ v)
        ∧ (∀ a, a < 9 → gridOfStr cexStr a 4 ≠ v)
        ∧ (∀ a b, a < 9 → b < 9 → a / 3 = 1 / 3 → b / 3 = 4 / 3 →
            gridOfStr cexStr a b ≠ v))) ∧
    (listOptionsPerEmptyCell (gridOfStr cexStr) emptyOptions 1 4).Pairwise
      (· < ·) ∧
    (listOptionsPerEmptyCell (gridOfStr cexStr) emptyOptions 1 4).Nodup) :=
  ⟨by decide, by decide, by decide,
   listOptions_empty_cell_exact (gridOfStr cexStr) emptyOptions 1 4
     (by decide) (by decide) (by decide)⟩

/-- C3: `fillSecuredOptions` writes, for every cell whose candidate list is a
singleton, its sole element into the grid there and clears that candidate
list; every cell whose candidate list has zero or at least two elements
keeps both its grid value and its candidate list. -/
theorem fillSecuredOptions_spec (g : Grid) (opts : Options) (r c : Nat)
    (hr : r < 9) (hc : c < 9) :
    (∀ v, opts r c = [v] →
      (fillSecuredOptions g opts).1 r c = v ∧
      (fillSecuredOptions g opts).2 r c = []) ∧
    ((opts r c).length ≠ 1 →
      (fillSecuredOptions g opts).1 r c = g r c ∧
      (fillSecuredOptions g opts).2 r c = opts r c) := by
  constructor
  · intro v hv
    have hlen : r < 9 ∧ c < 9 ∧ (opts r c).length = 1 :=
      ⟨hr, hc, by rw [hv]; rfl⟩
    constructor
    · show (if r < 9 ∧ c < 9 ∧ (opts r c).length = 1 then
          (opts r c).headD 0 else g r c) = v
      rw [if_pos hlen, hv]
      rfl
    · show (if r < 9 ∧ c < 9 ∧ (opts r c).length = 1 then ([] : List Nat)
          else opts r c) = []
      rw [if_pos hlen]
  · intro hlen
    have hnot : ¬(r < 9 ∧ c < 9 ∧ (opts r c).length = 1) := by
      intro h
      exact hlen h.2.2
    constructor
    · show (if r < 9 ∧ c < 9 ∧ (opts r c).length = 1 then
          (opts r c).headD 0 else g r c) = g r c
      rw [if_neg hnot]
    · show (if r < 9 ∧ c < 9 ∧ (opts r c).length = 1 then ([] : List Nat)
          else opts r c) = opts r c
      rw [if_neg hnot]

theorem fillSecuredOptions_spec_witness :
    (0 : Nat) < 9 ∧ (0 : Nat) < 9 ∧ optsStale 0 0 = [3] ∧
    ((fillSecuredOptions gZero optsStale).1 0 0 = 3 ∧
     (fillSecuredOptions gZero optsStale).2 0 0 = []) ∧
    ((optsStale 0 1).length ≠ 1 ∧
     (fillSecuredOptions gZero optsStale).1 0 1 = gZero 0 1 ∧
     (fillSecuredOptions gZero optsStale).2 0 1 = optsStale 0 1) :=
  ⟨by decide, by decide, by decide,
   (fillSecuredOptions_spec gZero optsStale 0 0 (by decide) (by decide)).1 3
     (by decide),
   by decide,
   (fillSecuredOptions_spec gZero optsStale 0 1 (by decide) (by decide)).2
     (by decide)⟩

/-- C8 is false as stated: `listOptionsPerEmptyCell` skips cells holding a
nonzero value (`continue`), so a stale candidate list on a filled cell
survives the run.  Concretely, on a grid whose every cell holds 1 and a
state whose cell (0,0) still lists candidate 3, the run leaves that
candidate list equal to `[3]`, not empty. -/
theorem listOptions_stale_counterexample :
    gOne 0 0 ≠ 0 ∧
    listOptionsPerEmptyCell gOne optsStale 0 0 = [3] ∧
    listOptionsPerEmptyCell gOne optsStale 0 0 ≠ [] := by decide

/-- C8 amended: after a run of the candidate calculator, every cell whose
grid value is nonzero keeps its candidate list exactly as it was before the
run (the run recomputes empty cells only); in particular such a cell's list
is empty after the run if and only if it was empty before. -/
theorem listOptions_filled_cell_unchanged (g : Grid) (opts : Options)
    (r c : Nat) (h : g r c ≠ 0) :
    listOptionsPerEmptyCell g opts r c = opts r c := by
  simp only [listOptionsPerEmptyCell]
  rw [if_neg]
  intro hcontra
  exact h hcontra.2.2

theorem listOptions_filled_cell_unchanged_witness :
    gOne 0 0 ≠ 0 ∧
    listOptionsPerEmptyCell gOne optsStale 0 0 = optsStale 0 0 :=
  ⟨by decide,
   listOptions_filled_cell_unchanged gOne optsStale 0 0 (by decide)⟩

/-- C9: when the grid has zero empty cells on entry, the solve loop exits at
once: no iteration runs (`iters = 0`), the grid and the candidate state are
returned untouched, and the terminal state is Solved (`remains = 0`, not
stalled). -/
theorem solveLoop_alreadySolved (g : Grid) (oss : Nat → Nat → List Nat)
    (h : countEmptyCells g = 0) :
    runSolver g oss
      = ⟨g, listOptionsPerEmptyCell g emptyOptions, 0, 0, false⟩ := by
  unfold runSolver
  rw [h]
  show solveIter oss (81 + 1) 0 g (listOptionsPerEmptyCell g emptyOptions) 0
      = _
  rw [solveIter]
  rfl

theorem solveLoop_alreadySolved_witness :
    countEmptyCells gOne = 0 ∧
    runSolver gOne ossNil
      = ⟨gOne, listOptionsPerEmptyCell gOne emptyOptions, 0, 0, false⟩ :=
  ⟨by decide, solveLoop_alreadySolved gOne ossNil (by decide)⟩

/-- C10: box assignment and box lookup agree: `(r, c)` is among the nine
cells scanned by `isInSquare` for square `getSquareFromRowCol r c`, and that
scan reports `true` exactly when some cell of the 3×3 block containing
`(r, c)` holds the value. -/
theorem squareIndexing_consistent (g : Grid) (r c v : Nat)
    (hr : r < 9) (hc : c < 9) :
    (r, c) ∈ squareCells (getSquareFromRowCol r c) ∧
    (isInSquare g (getSquareFromRowCol r c) v = true ↔
      ∃ a b, a < 9 ∧ b < 9 ∧ a / 3 = r / 3 ∧ b / 3 = c / 3 ∧ g a b = v) := by
  constructor
  · rw [mem_squareCells_getSquare hr hc]
    exact ⟨hr, hc, rfl, rfl⟩
  · exact isInSquare_getSquare_iff hr hc

theorem squareIndexing_consistent_witness :
    (4 : Nat) < 9 ∧ (7 : Nat) < 9 ∧
    ((4, 7) ∈ squareCells (getSquareFromRowCol 4 7) ∧
    (isInSquare (gridOfStr cexStr) (getSquareFromRowCol 4 7) 5 = true ↔
      ∃ a b, a < 9 ∧ b < 9 ∧ a / 3 = 4 / 3 ∧ b / 3 = 7 / 3 ∧
        gridOfStr cexStr a b = 5)) :=
  ⟨by decide, by decide,
   squareIndexing_consistent (gridOfStr cexStr) 4 7 5 (by decide)
     (by decide)⟩

/-- C4: for every grid (in particular any parsed 81-digit input) and any
map-iteration-order oracle, the solve loop terminates: at most 81 loop
iterations run, the loop ends Solved (`remains = 0`, not stalled) or
Stalled, the reported `remains` equals the final empty-cell count, any fuel
beyond 81 yields the same result (the loop needs no more than 81+1 checks),
and no pass ever increases the empty-cell count, so every iteration that
does not exit strictly decreases it. -/
theorem solveLoop_terminates (g : Grid) (oss : Nat → Nat → List Nat) :
    (runSolver g oss).iters ≤ 81 ∧
    ((runSolver g oss).stalled = false ↔ (runSolver g oss).remains = 0) ∧
    (runSolver g oss).remains = countEmptyCells (runSolver g oss).grid ∧
    (∀ fuel, 81 < fuel →
      solveIter oss fuel (countEmptyCells g) g
        (listOptionsPerEmptyCell g emptyOptions) 0 = runSolver g oss) ∧
    (∀ g2 opts2 k, OptsBound opts2 →
      countEmptyCells (onePass (oss k) g2 opts2).1 ≤ countEmptyCells g2) := by
  have hOpts : OptsBound (listOptionsPerEmptyCell g emptyOptions) :=
    optsBound_listOptions fun _ _ _ _ w hw => absurd hw (List.not_mem_nil w)
  have hCons : Consistent g (listOptionsPerEmptyCell g emptyOptions) :=
    consistent_listOptions fun _ _ _ _ hne => absurd rfl hne
  have h81 := countEmpty_le_81 g
  obtain ⟨h1, h2, h3, _, _, h6⟩ :=
    solveIter_spec oss 82 (countEmptyCells g) g
      (listOptionsPerEmptyCell g emptyOptions) 0 rfl hOpts hCons (by omega)
  exact ⟨Nat.le_trans h1 (by omega), h3, h2,
    fun fuel hf => h6 fuel (by omega),
    fun _ _ _ hb => onePass_countEmpty_le hb⟩

theorem solveLoop_terminates_witness :
    (81 : Nat) < 100 ∧ OptsBound emptyOptions ∧
    solveIter ossNil 100 (countEmptyCells gZero) gZero
      (listOptionsPerEmptyCell gZero emptyOptions) 0
      = runSolver gZero ossNil ∧
    countEmptyCells (onePass (ossNil 0) gZero emptyOptions).1
      ≤ countEmptyCells gZero :=
  ⟨by omega, by decide,
   (solveLoop_terminates gZero ossNil).2.2.2.1 100 (by omega),
   (solveLoop_terminates gZero ossNil).2.2.2.2 gZero emptyOptions 0
     (by decide)⟩

/-- C5: the invariant "a cell's candidate set is non-empty only if its grid
value is 0" is preserved by the candidate calculator, by every zone call of
the unique-occurrence reducer, and by the commit step, and it holds in the
state the solve loop returns when started, as `main` does, from all-empty
candidate sets. -/
theorem consistency_invariant :
    (∀ g opts, Consistent g opts →
      Consistent g (listOptionsPerEmptyCell g opts)) ∧
    (∀ g opts rm rM cm cM order, Consistent g opts →
      Consistent g
        (reduceOptionsFromUniqueOccurenceGeneric opts rm rM cm cM order)) ∧
    (∀ g opts, Consistent g opts →
      Consistent (fillSecuredOptions g opts).1
        (fillSecuredOptions g opts).2) ∧
    (∀ g oss, Consistent (runSolver g oss).grid (runSolver g oss).opts) := by
  refine ⟨fun g opts h => consistent_listOptions h,
    fun g opts rm rM cm cM order h => consistent_reduceGeneric h,
    fun g opts h => consistent_fill h, ?_⟩
  intro g oss
  have hOpts : OptsBound (listOptionsPerEmptyCell g emptyOptions) :=
    optsBound_listOptions fun _ _ _ _ w hw => absurd hw (List.not_mem_nil w)
  have hCons : Consistent g (listOptionsPerEmptyCell g emptyOptions) :=
    consistent_listOptions fun _ _ _ _ hne => absurd rfl hne
  have h81 := countEmpty_le_81 g
  exact (solveIter_spec oss 82 (countEmptyCells g) g
    (listOptionsPerEmptyCell g emptyOptions) 0 rfl hOpts hCons
    (by omega)).2.2.2.2.1

theorem consistency_invariant_witness :
    Consistent gZero emptyOptions ∧
    Consistent gZero (listOptionsPerEmptyCell gZero emptyOptions) :=
  ⟨by decide, consistency_invariant.1 gZero emptyOptions (by decide)⟩

theorem hasDigitRun81_iff_all {s : List Char} (h : s.length = 81) :
    hasDigitRun81 s = true ↔ ∀ ch ∈ s, isDigitCh ch = true := by
  simp only [hasDigitRun81, List.any_eq_true, List.mem_range,
    Bool.and_eq_true, decide_eq_true_eq, List.all_eq_true]
  constructor
  · rintro ⟨i, _, hle, hall⟩
    have hi0 : i = 0 := by omega
    subst hi0
    intro ch hch
    apply hall
    rw [List.drop_zero, List.take_of_length_le (by omega)]
    exact hch
  · intro hall
    refine ⟨0, by omega, by omega, ?_⟩
    intro ch hch
    apply hall
    rw [List.drop_zero, List.take_of_length_le (by omega)] at hch
    exact hch

/-- C6: grid initialization fails, with an error reported before any
solving, exactly when the input's length is not 81 or some character lies
outside '0'..'9'; on every 81-character digit string it succeeds and fills
the grid row-major with the corresponding digit values. -/
theorem strToGrid_spec (s : List Char) :
    (strToGrid s = none ↔
      (s.length ≠ 81 ∨ ∃ ch ∈ s, ¬('0' ≤ ch ∧ ch ≤ '9'))) ∧
    (s.length = 81 → (∀ ch ∈ s, '0' ≤ ch ∧ ch ≤ '9') →
      strToGrid s = some (gridOfStr s) ∧
      (∀ r c, r < 9 → c < 9 →
        gridOfStr s r c = (s.getD (9 * r + c) '0').toNat - 48)) := by
  constructor
  · by_cases hlen : s.length = 81
    · rw [strToGrid, if_neg (by omega)]
      by_cases hrun : hasDigitRun81 s = true
      · rw [if_neg (by simpa using hrun)]
        constructor
        · intro hsome
          cases hsome
        · rintro (h | ⟨ch, hch, hnd⟩)
          · exact absurd hlen h
          · exfalso
            have hd := (hasDigitRun81_iff_all hlen).mp hrun ch hch
            simp only [isDigitCh, Bool.and_eq_true, decide_eq_true_eq] at hd
            exact hnd hd
      · rw [if_pos (by simpa using hrun)]
        constructor
        · intro _
          right
          have hna : ¬ ∀ ch ∈ s, isDigitCh ch = true := fun hall =>
            hrun ((hasDigitRun81_iff_all hlen).mpr hall)
          push_neg at hna
          obtain ⟨ch, hch, hnd⟩ := hna
          refine ⟨ch, hch, fun hcontra => hnd ?_⟩
          simp only [isDigitCh, Bool.and_eq_true, decide_eq_true_eq]
          exact hcontra
        · intro _
          rfl
    · rw [strToGrid, if_pos hlen]
      exact ⟨fun _ => Or.inl hlen, fun _ => rfl⟩
  · intro hlen hdig
    constructor
    · rw [strToGrid, if_neg (by omega)]
      rw [if_neg (by
        simp only [Decidable.not_not]
        exact (hasDigitRun81_iff_all hlen).mpr fun ch hch => by
          simp only [isDigitCh, Bool.and_eq_true, decide_eq_true_eq]
          exact hdig ch hch)]
    · intro r c hr hc
      rw [gridOfStr, if_pos (⟨hr, hc⟩ : r < 9 ∧ c < 9)]
      rfl

theorem strToGrid_spec_witness :
    cexStr.length = 81 ∧ (∀ ch ∈ cexStr, '0' ≤ ch ∧ ch ≤ '9') ∧
    (strToGrid cexStr = some (gridOfStr cexStr) ∧
     (∀ r c, r < 9 → c < 9 →
       gridOfStr cexStr r c = (cexStr.getD (9 * r + c) '0').toNat - 48)) :=
  ⟨by decide, by decide, (strToGrid_spec cexStr).2 (by decide) (by decide)⟩

/-- C2: in a single zone call of the unique-position reducer: if exactly
one value `v` has tally exactly 1 across the zone's cells (and the
iteration order, which visits every tally key, therefore visits `v`), the
unique cell listing `v` has its candidate list replaced by `[v]` and every
other cell is unchanged; and in general — in particular when several values
have tally 1 — the call collapses exactly for the last tally-1 value of the
iteration order over the tally mapping. -/
theorem reduceUnique_zone_pass (opts : Options) (z : Zone)
    (_hz : z ∈ zonesList) (order : List Nat)
    (hbound : ∀ r, r ≤ z.rM → ∀ c, c ≤ z.cM → ∀ w ∈ opts r c, w ≤ 9) :
    (∀ v, v ∈ order → zoneTally opts z.rm z.rM z.cm z.cM v = 1 →
      (∀ w, w ≤ 9 → zoneTally opts z.rm z.rM z.cm z.cM w = 1 → w = v) →
      ∀ r c, z.rm ≤ r → r ≤ z.rM → z.cm ≤ c → c ≤ z.cM → v ∈ opts r c →
        reduceOptionsFromUniqueOccurenceGeneric opts z.rm z.rM z.cm z.cM
          order r c = [v] ∧
        (∀ a b, ¬(a = r ∧ b = c) →
          reduceOptionsFromUniqueOccurenceGeneric opts z.rm z.rM z.cm z.cM
            order a b = opts a b)) ∧
    (∀ v w, v ≠ w → zoneTally opts z.rm z.rM z.cm z.cM v = 1 →
      zoneTally opts z.rm z.rM z.cm z.cM w = 1 →
      reduceOptionsFromUniqueOccurenceGeneric opts z.rm z.rM z.cm z.cM order
        = applyValueToFix opts z.rm z.rM z.cm z.cM
            ((order.filter fun u =>
               decide (zoneTally opts z.rm z.rM z.cm z.cM u = 1)).getLastD
              0)) := by
  constructor
  · intro v hvord hv1 huniq r c hrm hrM hcm hcM hvmem
    have hpick : pickValueToFix (zoneTally opts z.rm z.rM z.cm z.cM) order
        = v := by
      rw [pickValueToFix, foldl_pick]
      apply getLastD_const
      · exact List.ne_nil_of_mem
          (List.mem_filter.mpr ⟨hvord, by simpa using hv1⟩)
      · intro x hx
        obtain ⟨hxord, hx1⟩ := List.mem_filter.mp hx
        have hx2 : zoneTally opts z.rm z.rM z.cm z.cM x = 1 := by
          simpa using hx1
        have hx3 : zoneTally opts z.rm z.rM z.cm z.cM x ≠ 0 := by omega
        exact huniq x (zoneTally_pos_le_nine hbound hx3) hx2
    have hone := zoneTally_one_unique hv1
      (mem_zoneCells.mpr ⟨hrm, hrM, hcm, hcM⟩) hvmem
    constructor
    · simp only [reduceOptionsFromUniqueOccurenceGeneric, hpick,
        applyValueToFix]
      rw [if_pos ⟨hrm, hrM, hcm, hcM, hvmem⟩]
    · intro a b hnab
      simp only [reduceOptionsFromUniqueOccurenceGeneric, hpick,
        applyValueToFix]
      rw [if_neg]
      rintro ⟨h1, h2, h3, h4, h5⟩
      have hne : (a, b) ≠ (r, c) := by
        intro he
        rw [Prod.mk.injEq] at he
        exact hnab he
      exact hone (a, b) (mem_zoneCells.mpr ⟨h1, h2, h3, h4⟩) hne h5
  · intro v w _ _ _
    simp only [reduceOptionsFromUniqueOccurenceGeneric, pickValueToFix]
    rw [foldl_pick]

theorem reduceUnique_zone_pass_witness :
    (⟨0, 0, 0, 8⟩ : Zone) ∈ zonesList ∧
    (∀ r, r ≤ (0 : Nat) → ∀ c, c ≤ (8 : Nat) →
      ∀ w ∈ optsZoneEx r c, w ≤ 9) ∧
    (1 : Nat) ∈ [1, 2, 3] ∧ zoneTally optsZoneEx 0 0 0 8 1 = 1 ∧
    (∀ w, w ≤ 9 → zoneTally optsZoneEx 0 0 0 8 w = 1 → w = 1) ∧
    1 ∈ optsZoneEx 0 0 ∧
    (reduceOptionsFromUniqueOccurenceGeneric optsZoneEx 0 0 0 8 [1, 2, 3] 0 0
       = [1] ∧
     (∀ a b, ¬(a = 0 ∧ b = 0) →
       reduceOptionsFromUniqueOccurenceGeneric optsZoneEx 0 0 0 8 [1, 2, 3]
         a b = optsZoneEx a b)) :=
  ⟨by decide, by decide, by decide, by decide, by decide, by decide,
   (reduceUnique_zone_pass optsZoneEx ⟨0, 0, 0, 8⟩ (by decide) [1, 2, 3]
       (by decide)).1 1 (by decide) (by decide) (by decide) 0 0 (by decide)
     (by decide) (by decide) (by decide) (by decide)⟩

/-- The checked pass reduces the options exactly as
`reduceOptionsFromUniqueOccurence` does. -/
theorem reducePassCheck_fst (opts : Options) (ords : Nat → List Nat) :
    (reducePassCheck opts ords).1
      = reduceOptionsFromUniqueOccurence opts ords := by
  have main : ∀ (l : List (Nat × Zone)) (o : Options) (b : Bool),
      (l.foldl (fun acc iz =>
          (reduceOptionsFromUniqueOccurenceGeneric acc.1 iz.2.rm iz.2.rM
            iz.2.cm iz.2.cM (ords iz.1),
           acc.2 && orderOk (ords iz.1) (zoneKeysList acc.1 iz.2))) (o, b)).1
        = l.foldl (fun o2 iz =>
            reduceOptionsFromUniqueOccurenceGeneric o2 iz.2.rm iz.2.rM
              iz.2.cm iz.2.cM (ords iz.1)) o := by
    intro l
    induction l with
    | nil => intro o b; rfl
    | cons a l ih =>
      intro o b
      rw [List.foldl_cons, List.foldl_cons]
      exact ih _ _
  exact main zonesList.enum opts true

set_option maxRecDepth 40000 in
/-- C7 fails on the code: the terminal state depends on Go's map iteration
order.  On the 81-digit input `cexStr`, two runs whose iteration orders are
each valid (every order is a permutation of the keys of the tally
dictionary of its call, as `runOk` checks) end differently: with ascending
orders the loop ends Solved (`remains = 0`), with descending orders it ends
Stalled with one empty cell left. -/
theorem solveLoop_nondeterministic :
    strToGrid cexStr = some (gridOfStr cexStr) ∧
    runOk (gridOfStr cexStr) ossAsc = true ∧
    runOk (gridOfStr cexStr) ossDesc = true ∧
    (runSolver (gridOfStr cexStr) ossAsc).remains = 0 ∧
    (runSolver (gridOfStr cexStr) ossAsc).stalled = false ∧
    (runSolver (gridOfStr cexStr) ossDesc).remains = 1 ∧
    (runSolver (gridOfStr cexStr) ossDesc).stalled = true :=
  ⟨rfl, by decide, by decide, by decide, by decide, by decide, by decide⟩

/-- C7 amended: the solver is deterministic once the map iteration orders
are fixed: two runs of the full solve loop on the same input that use the
same iteration order at every tally scan reach the same terminal state and
the same final grid. -/
theorem solveLoop_deterministic_given_orders (g : Grid)
    (oss1 oss2 : Nat → Nat → List Nat) (h : ∀ k i, oss1 k i = oss2 k i) :
    runSolver g oss1 = runSolver g oss2 := by
  have he : oss1 = oss2 := funext fun k => funext fun i => h k i
  rw [he]

theorem solveLoop_deterministic_given_orders_witness :
    (∀ k i, ossNil k i = ossOfTable [] k i) ∧
    runSolver gZero ossNil = runSolver gZero (ossOfTable []) :=
  ⟨fun _ _ => rfl,
   solveLoop_deterministic_given_orders gZero ossNil (ossOfTable [])
     fun _ _ => rfl⟩

end Sudoksolv
